import Mathlib

set_option autoImplicit false

/-!
Shallow embedding of `src/schema.ts` (the Dongoose document layer over a
transactional key-value store).

Modelling conventions:
* JS record objects become association lists `List (String × Val)` whose
  field-assignment (`setField`) keeps an existing key's position and appends
  new keys, matching JS object insertion-order semantics.
* The Deno.Kv store becomes an association list from physical keys to
  records; `db.atomic()` with `check {versionstamp: null}` preconditions and
  `set`/`delete` mutations becomes `performTransaction`, which evaluates all
  checks against the pre-state and applies all mutations only when every
  check passes (all-or-nothing).
* `Date.now()` and `crypto.randomUUID()` are external inputs; they are passed
  explicitly as `now : Int` and `id : String` parameters.
* The zod validators are modelled at the level of declared field types
  (`ValTy`); the `.uuid()` refinement on `id` is not modelled (identifier
  generation is assumed well-formed, as the spec places it out of scope).
* A thrown `ZodError` (shape violation) is modelled as the outer `none` of an
  `Option` result; the JS `null` return value is the inner `Option`.
-/

namespace Dongoose

/-- Model of a JS primitive value as it appears in records, queries and
key parts. `vUndef` models JS `undefined` (a missing property read). -/
inductive Val where
  | vStr (s : String)
  | vNum (n : Int)
  | vBool (b : Bool)
  | vUndef
  deriving DecidableEq, Repr

/-- JS `.toString()` / string coercion used when a field value is placed in a
mutation key (`(data[index] as string).toString()` in `performTransaction`). -/
def valToString : Val → String
  | .vStr s => s
  | .vNum n => toString n
  | .vBool b => if b then "true" else "false"
  | .vUndef => "undefined"

/-- A record object: field name to value, in insertion order (JS objects
never hold duplicate keys; the operations below preserve that). -/
abbrev Rec := List (String × Val)

/-- Property read `r[f]`: first (unique) binding of `f`, if any. -/
def getField : Rec → String → Option Val
  | [], _ => none
  | (k, v) :: r, f => if k = f then some v else getField r f

/-- Property read defaulting to `undefined`, as a bare JS access does. -/
def getFieldD (r : Rec) (f : String) : Val :=
  (getField r f).getD Val.vUndef

/-- Property assignment `r[f] = v`: overwrite in place, else append,
matching JS object key-order semantics. -/
def setField : Rec → String → Val → Rec
  | [], f, v => [(f, v)]
  | (k, w) :: r, f, v => if k = f then (f, v) :: r else (k, w) :: setField r f v

/-- A Deno.Kv physical key as built by this library: always the triple
`[schemaName, <schemaName>_by_<field>, <field value>]`. The third part is a
`Val` because the precondition path passes the raw field value while the
mutation path passes its string conversion. -/
structure Key where
  coll : String
  idx : String
  part : Val
  deriving DecidableEq, Repr

/-- The key-value store: association list from physical key to stored
record. List order stands in for the store's key iteration order. -/
abbrev Store := List (Key × Rec)

/-- Point read `db.get`: `none` models an absent key (versionstamp null). -/
def getKV : Store → Key → Option Rec
  | [], _ => none
  | (k, r) :: st, key => if k = key then some r else getKV st key

/-- Store write: overwrite the key in place, else append. -/
def setKV : Store → Key → Rec → Store
  | [], key, r => [(key, r)]
  | (k, w) :: st, key, r =>
      if k = key then (key, r) :: st else (k, w) :: setKV st key r

/-- Store delete: remove every binding of the key. -/
def delKV : Store → Key → Store
  | [], _ => []
  | (k, w) :: st, key => if k = key then delKV st key else (k, w) :: delKV st key

/-- Declared field type of the schema shape (zod validator, modelled at the
type level: `z.string()`, `z.number()` / `z.number().int()`, `z.boolean()`). -/
inductive ValTy where
  | str
  | num
  | bool
  deriving DecidableEq, Repr

/-- Does a runtime value satisfy a declared field type? `vUndef` satisfies
none (zod rejects `undefined` for a required field). -/
def valHasTy : Val → ValTy → Bool
  | .vStr _, .str => true
  | .vNum _, .num => true
  | .vBool _, .bool => true
  | _, _ => false

/-- A declared schema shape: field name to declared type. -/
abbrev Shape := List (String × ValTy)

/-- Validation `z.object(schema).parse(data)`: succeeds iff every declared field is
present with the declared type (extra keys pass; zod objects are
non-strict, and the parsed copy is discarded by the source anyway). -/
def validateObj (shape : Shape) (data : Rec) : Bool :=
  shape.all fun ft =>
    match getField data ft.1 with
    | some v => valHasTy v ft.2
    | none => false

/-- Validation `schemaValidationPartialObject.parse`: declared fields are optional but
must have the declared type when present. -/
def validatePartial (shape : Shape) (data : Rec) : Bool :=
  shape.all fun ft =>
    match getField data ft.1 with
    | some v => valHasTy v ft.2
    | none => true

/-- Validation `schemaValidationPartialObjectWithId.parse`: the partial validator over
the shape extended with the `id : string` system field. -/
def validatePartialWithId (shape : Shape) (q : Rec) : Bool :=
  validatePartial (shape ++ [("id", ValTy.str)]) q

/-- Source `getKeysWithIndexes`: the index-qualified segment
`` `${name}_by_${index}` ``. -/
def getKeysWithIndexes (name index : String) : String :=
  name ++ "_by_" ++ index

/-- Source `updateTimestamps`: sets `createdAt` only when `isInsertion`,
and always sets `updatedAt`, to the current time `now`. -/
def updateTimestamps (data : Rec) (isInsertion : Bool) (now : Int) : Rec :=
  let d := if isInsertion then setField data "createdAt" (Val.vNum now) else data
  setField d "updatedAt" (Val.vNum now)

/-- The two transaction operations of `performTransaction`. -/
inductive Op where
  | set
  | delete
  deriving DecidableEq, Repr

/-- Source `transaction.commit()` outcome: `ok` models
`{ok: true, versionstamp}` (the write token is not modelled), `fail` models
`{ok: false}` (at least one precondition failed). -/
inductive CommitResult where
  | ok
  | fail
  deriving DecidableEq, Repr

/-- The record as stamped at the top of `performTransaction`:
`updateTimestamps(data, operation === "set")`. -/
def stagedRecord (data : Rec) (operation : Op) (now : Int) : Rec :=
  updateTimestamps data (operation == Op.set) now

/-- Precondition key of `transaction.check`: the third part is the RAW field
value (`data[index] as string` is only a type assertion). -/
def checkKey (schemaName index : String) (data : Rec) : Key :=
  ⟨schemaName, getKeysWithIndexes schemaName index, getFieldD data index⟩

/-- Mutation key of `transaction[operation]`: the third part is the STRING
conversion of the field value (`(data[index] as string).toString()`). -/
def mutKey (schemaName index : String) (data : Rec) : Key :=
  ⟨schemaName, getKeysWithIndexes schemaName index,
    Val.vStr (valToString (getFieldD data index))⟩

/-- Source `performTransaction`: stamp timestamps, stage one not-exists
check per primary index, stage one mutation per primary index, and commit
atomically. All checks read the pre-state; mutations apply only when every
check passes, else nothing changes and the commit reports failure. -/
def performTransaction (st : Store) (schemaName : String)
    (primaryIndexes : List String) (data : Rec) (operation : Op)
    (now : Int) : CommitResult × Store :=
  let d := stagedRecord data operation now
  if primaryIndexes.all fun index => (getKV st (checkKey schemaName index d)).isNone then
    (CommitResult.ok,
      primaryIndexes.foldl
        (fun s index =>
          match operation with
          | Op.set => setKV s (mutKey schemaName index d) d
          | Op.delete => delKV s (mutKey schemaName index d))
        st)
  else
    (CommitResult.fail, st)

/-- A Dongoose schema instance: the declared shape plus the options record
(`name`, `primaryIndexes`, `secondaryIndexes`). -/
structure SchemaDef where
  shape : Shape
  name : String
  primaryIndexes : List String
  secondaryIndexes : List String

/-- JS `[...new Set(l)]`: deduplicate keeping the first occurrence of each
element, in insertion order. -/
def jsSetDedup (l : List String) : List String :=
  l.foldl (fun acc x => if x ∈ acc then acc else acc ++ [x]) []

/-- Source `schemaPrimaryIndexes`: `[...new Set([...primaryIndexes || [], "id"])]`. -/
def effPrimaryIndexes (s : SchemaDef) : List String :=
  jsSetDedup (s.primaryIndexes ++ ["id"])

/-- Source `schemaSecondaryIndexes`: `[...new Set([...secondaryIndexes || [], "id"])]`. -/
def effSecondaryIndexes (s : SchemaDef) : List String :=
  jsSetDedup (s.secondaryIndexes ++ ["id"])

/-- JS spread `{id, ...data}`: start from `{id}` and assign each field of
`data` in order. -/
def spreadWithId (id : String) (data : Rec) : Rec :=
  data.foldl (fun acc kv => setField acc kv.1 kv.2) [("id", Val.vStr id)]

/-- Flat-record specialisation of `deepMerge(item, data)`: every field of
`data` overwrites (or is appended to) `item`. Our `Val` carries only
scalars, for which the std deep merge replaces values field-wise. -/
def deepMerge (item data : Rec) : Rec :=
  data.foldl (fun acc kv => setField acc kv.1 kv.2) item

/-- Source `create`: validate the input against the base shape, then commit
`{id, ...data}` with `op = set` across every effective primary index.
Outer `none` models the thrown `ZodError`. -/
def create (s : SchemaDef) (data : Rec) (id : String) (now : Int)
    (st : Store) : Option (CommitResult × Store) :=
  if validateObj s.shape data then
    some (performTransaction st s.name (effPrimaryIndexes s)
      (spreadWithId id data) Op.set now)
  else
    none

/-- A read issued against the store, logged by the query operations. -/
inductive StoreRead where
  | getMany (keys : List Key)
  | scanColl (coll : String)
  deriving DecidableEq, Repr

/-- Keys handed to `db.getMany` by `findOne`: one per query entry, third
part the raw query value. -/
def queryKeys (name : String) (q : Rec) : List Key :=
  q.map fun kv => ⟨name, getKeysWithIndexes name kv.1, kv.2⟩

/-- Selection `results.find((result) => result.value)?.value ?? null`: first present
value among the batched results, else null. -/
def firstSome : List (Option Rec) → Option Rec
  | [] => none
  | some r :: _ => some r
  | none :: rest => firstSome rest

/-- Source `findOne`: validate the query, return `null` on an empty query
BEFORE any store access, else batch-get one key per query field and return
the first hit. The result pairs the returned value with the list of store
reads actually issued. -/
def findOne (s : SchemaDef) (q : Rec) (st : Store) :
    Option (Option Rec × List StoreRead) :=
  if validatePartialWithId s.shape q then
    if q.length = 0 then
      some (none, [])
    else
      some (firstSome ((queryKeys s.name q).map (getKV st)),
            [StoreRead.getMany (queryKeys s.name q)])
  else
    none

/-- Source `findById`: point lookup on the `id` field. -/
def findById (s : SchemaDef) (id : String) (st : Store) :
    Option (Option Rec × List StoreRead) :=
  findOne s [("id", Val.vStr id)] st

/-- The record's `id` property as used by `find`'s membership map
(`entry.value.id`). -/
def gid (r : Rec) : Val :=
  getFieldD r "id"

/-- One query-field test of `find`'s scan body:
`entry.value[key] === value`. -/
def fieldMatches (r : Rec) (kv : String × Val) : Bool :=
  getFieldD r kv.1 == kv.2

/-- Inner loop body of `find`'s scan: on a field match, push the record and
remember its id unless the id was already seen. State is
`(seen ids, output so far)`. -/
def procStep (r : Rec) (sc : List Val × List Rec) (kv : String × Val) :
    List Val × List Rec :=
  if fieldMatches r kv then
    if gid r ∈ sc.1 then sc else (sc.1 ++ [gid r], sc.2 ++ [r])
  else
    sc

/-- Processing of one scanned entry by `find`: the inner loop over all
query fields. -/
def procEntry (q : Rec) (r : Rec) (acc : List Val × List Rec) :
    List Val × List Rec :=
  q.foldl (procStep r) acc

/-- Entries of `db.list({prefix: [name]})`: every store entry of the
collection, in the store's iteration order. -/
def collEntries (st : Store) (name : String) : List (Key × Rec) :=
  st.filter fun e => e.1.coll = name

/-- Source `find`: validate the query, return `null` on an empty query
BEFORE any store access, else scan the whole collection and fold
`procEntry` over it, returning the pushed records (always an array, so the
trailing `?? null` never fires). -/
def find (s : SchemaDef) (q : Rec) (st : Store) :
    Option (Option (List Rec) × List StoreRead) :=
  if validatePartialWithId s.shape q then
    if q.length = 0 then
      some (none, [])
    else
      some (some ((collEntries st s.name).foldl
              (fun acc e => procEntry q e.2 acc) ([], [])).2,
            [StoreRead.scanColl s.name])
  else
    none

/-- Source `updateById`: validate the partial data, read the record by id
(null means no-op), deep-merge the partial data onto it and re-commit with
`op = set`. Returns the result together with the resulting store. -/
def updateById (s : SchemaDef) (id : String) (data : Rec) (now : Int)
    (st : Store) : Option (Option CommitResult × Store) :=
  if validatePartial s.shape data then
    match findById s id st with
    | none => none
    | some (none, _) => some (none, st)
    | some (some item, _) =>
        let res := performTransaction st s.name (effPrimaryIndexes s)
          (deepMerge item data) Op.set now
        some (some res.1, res.2)
  else
    none

/-- Source `updateOne`: validate the partial data, resolve the record by an
arbitrary query, then delegate to `updateById` on its id. -/
def updateOne (s : SchemaDef) (q : Rec) (data : Rec) (now : Int)
    (st : Store) : Option (Option CommitResult × Store) :=
  if validatePartial s.shape data then
    match findOne s q st with
    | none => none
    | some (none, _) => some (none, st)
    | some (some item, _) => updateById s (valToString (gid item)) data now st
  else
    none

/-- Source `deleteById`: read the record by id (null means no-op), then
commit `op = delete` across every effective primary index using the
record's current field values. -/
def deleteById (s : SchemaDef) (id : String) (now : Int) (st : Store) :
    Option (Option CommitResult × Store) :=
  match findById s id st with
  | none => none
  | some (none, _) => some (none, st)
  | some (some item, _) =>
      let res := performTransaction st s.name (effPrimaryIndexes s) item
        Op.delete now
      some (some res.1, res.2)

/-- Does the record match at least one queried field (logical OR across the
supplied query fields)? -/
def matchesAny (q : Rec) (r : Rec) : Bool :=
  q.any (fieldMatches r)

/-- Deduplication by `id` keeping the first occurrence, threading the set of
already-seen ids. Written from the spec's description of `find`'s result
("each matching entry is deduplicated by `id` using a membership set,
preserving first-seen order"), to be compared with the source-derived fold. -/
def dedupAux (seen : List Val) : List Rec → List Val × List Rec
  | [] => (seen, [])
  | r :: rs =>
      if gid r ∈ seen then dedupAux seen rs
      else ((dedupAux (seen ++ [gid r]) rs).1,
            r :: (dedupAux (seen ++ [gid r]) rs).2)

/-- Spec-side characterisation of `find`'s output on a non-empty query:
filter the scanned records by the OR predicate, then deduplicate by `id`
keeping first-seen scan order. -/
def specFindResult (s : SchemaDef) (q : Rec) (st : Store) : List Rec :=
  (dedupAux []
    (((collEntries st s.name).map Prod.snd).filter (matchesAny q))).2

/-- The record committed by `create`: the input data spread behind a fresh
`id` and stamped by the `set` path of `performTransaction`. -/
def createdRecord (id : String) (data : Rec) (now : Int) : Rec :=
  stagedRecord (spreadWithId id data) Op.set now

/-- Example schema instance for the closed evaluation theorems: collection
`users` with shape `{email : string}` and declared primary index `email`. -/
def usersS : SchemaDef :=
  ⟨[("email", ValTy.str)], "users", ["email"], []⟩

/-- Example creation input. -/
def exD1 : Rec := [("email", Val.vStr "a@x.com")]

/-- Example partial update data. -/
def exUpd : Rec := [("email", Val.vStr "b@x.com")]

/-- The record stored by the example `create` (id `u1`, time 0). -/
def exR1 : Rec := createdRecord "u1" exD1 0

/-- The store after the example `create` on the empty store. -/
def exSt1 : Store :=
  ((create usersS exD1 "u1" 0 []).getD (CommitResult.fail, [])).2

/-! Helper lemmas about the record and store primitives. -/

theorem getField_setField (r : Rec) (f g : String) (v : Val) :
    getField (setField r f v) g = if g = f then some v else getField r g := by
  induction r with
  | nil =>
      by_cases h : g = f <;> simp [setField, getField, h, Ne.symm]
  | cons kv r ih =>
      obtain ⟨k, w⟩ := kv
      by_cases hkf : k = f
      · subst hkf
        by_cases hg : g = k <;> simp [setField, getField, hg, Ne.symm]
      · by_cases hg : k = g
        · subst hg
          simp [setField, getField, hkf, Ne.symm hkf]
        · simp [setField, getField, hkf, hg, ih]

theorem getKV_setKV (st : Store) (k key : Key) (r : Rec) :
    getKV (setKV st k r) key = if key = k then some r else getKV st key := by
  induction st with
  | nil =>
      by_cases h : key = k <;> simp [setKV, getKV, h, Ne.symm]
  | cons e st ih =>
      obtain ⟨k', w⟩ := e
      by_cases hk : k' = k
      · subst hk
        by_cases hg : key = k' <;> simp [setKV, getKV, hg, Ne.symm]
      · by_cases hg : k' = key
        · subst hg
          simp [setKV, getKV, hk, Ne.symm hk]
        · simp [setKV, getKV, hk, hg, ih]

theorem getKV_setFold (idxs : List String) (name : String) (d : Rec)
    (st : Store) (k : Key) :
    getKV (idxs.foldl (fun s index => setKV s (mutKey name index d) d) st) k
      = if k ∈ idxs.map (fun i => mutKey name i d) then some d
        else getKV st k := by
  induction idxs generalizing st with
  | nil => simp
  | cons i is ih =>
      simp only [List.foldl_cons, List.map_cons, List.mem_cons]
      rw [ih]
      by_cases h : k ∈ is.map fun i => mutKey name i d
      · simp [h]
      · by_cases h2 : k = mutKey name i d <;> simp [h, h2, getKV_setKV]

theorem getField_foldlSet_not_mem (l : List (String × Val)) (init : Rec)
    (f : String) (h : f ∉ l.map Prod.fst) :
    getField (l.foldl (fun acc kv => setField acc kv.1 kv.2) init) f
      = getField init f := by
  induction l generalizing init with
  | nil => rfl
  | cons kv l ih =>
      simp only [List.map_cons, List.mem_cons, not_or] at h
      simp only [List.foldl_cons]
      rw [ih _ h.2, getField_setField, if_neg h.1]

theorem getField_foldlSet_mem (l : List (String × Val)) (init : Rec)
    (f : String) (v : Val) (hnd : (l.map Prod.fst).Nodup)
    (hf : getField l f = some v) :
    getField (l.foldl (fun acc kv => setField acc kv.1 kv.2) init) f
      = some v := by
  induction l generalizing init with
  | nil => simp [getField] at hf
  | cons kv l ih =>
      obtain ⟨k, w⟩ := kv
      simp only [List.map_cons, List.nodup_cons] at hnd
      simp only [List.foldl_cons]
      by_cases hk : k = f
      · subst hk
        have hf' : w = v := by simpa [getField] using hf
        subst hf'
        rw [getField_foldlSet_not_mem _ _ _ hnd.1, getField_setField,
          if_pos rfl]
      · simp only [getField, if_neg hk] at hf
        exact ih _ hnd.2 hf

theorem stagedRecord_set_eq (d : Rec) (now : Int) :
    stagedRecord d Op.set now
      = setField (setField d "createdAt" (Val.vNum now)) "updatedAt"
          (Val.vNum now) := rfl

theorem stagedRecord_delete_eq (d : Rec) (now : Int) :
    stagedRecord d Op.delete now
      = setField d "updatedAt" (Val.vNum now) := rfl

theorem getField_stagedRecord_other (d : Rec) (op : Op) (now : Int)
    (f : String) (h1 : f ≠ "createdAt") (h2 : f ≠ "updatedAt") :
    getField (stagedRecord d op now) f = getField d f := by
  cases op with
  | set =>
      rw [stagedRecord_set_eq, getField_setField, if_neg h2,
        getField_setField, if_neg h1]
  | delete =>
      rw [stagedRecord_delete_eq, getField_setField, if_neg h2]

theorem getField_stagedRecord_createdAt_set (d : Rec) (now : Int) :
    getField (stagedRecord d Op.set now) "createdAt"
      = some (Val.vNum now) := by
  rw [stagedRecord_set_eq, getField_setField, if_neg (by decide),
    getField_setField, if_pos rfl]

theorem getField_stagedRecord_updatedAt (d : Rec) (op : Op) (now : Int) :
    getField (stagedRecord d op now) "updatedAt" = some (Val.vNum now) := by
  cases op with
  | set => rw [stagedRecord_set_eq, getField_setField, if_pos rfl]
  | delete => rw [stagedRecord_delete_eq, getField_setField, if_pos rfl]

theorem getField_spreadWithId_id (data : Rec) (id : String)
    (h : "id" ∉ data.map Prod.fst) :
    getField (spreadWithId id data) "id" = some (Val.vStr id) := by
  unfold spreadWithId
  rw [getField_foldlSet_not_mem _ _ _ h]
  rfl

theorem getField_spreadWithId_other (data : Rec) (id : String) (f : String)
    (v : Val) (hnd : (data.map Prod.fst).Nodup)
    (hf : getField data f = some v) :
    getField (spreadWithId id data) f = some v :=
  getField_foldlSet_mem data _ f v hnd hf

theorem mem_jsSetDedupFold (l acc : List String) (x : String) :
    x ∈ l.foldl (fun a y => if y ∈ a then a else a ++ [y]) acc
      ↔ x ∈ acc ∨ x ∈ l := by
  induction l generalizing acc with
  | nil => simp
  | cons y ys ih =>
      simp only [List.foldl_cons, List.mem_cons]
      by_cases h : y ∈ acc
      · rw [if_pos h, ih]
        constructor
        · rintro (hx | hx)
          · exact Or.inl hx
          · exact Or.inr (Or.inr hx)
        · rintro (hx | hx | hx)
          · exact Or.inl hx
          · exact Or.inl (hx ▸ h)
          · exact Or.inr hx
      · rw [if_neg h, ih]
        simp only [List.mem_append, List.mem_singleton]
        tauto

theorem nodup_jsSetDedupFold (l acc : List String) (h : acc.Nodup) :
    (l.foldl (fun a y => if y ∈ a then a else a ++ [y]) acc).Nodup := by
  induction l generalizing acc with
  | nil => exact h
  | cons y ys ih =>
      simp only [List.foldl_cons]
      by_cases hy : y ∈ acc
      · rw [if_pos hy]; exact ih acc h
      · rw [if_neg hy]
        refine ih _ ?_
        simp [List.nodup_append, h, hy]

theorem mem_jsSetDedup (l : List String) (x : String) :
    x ∈ jsSetDedup l ↔ x ∈ l := by
  unfold jsSetDedup
  rw [mem_jsSetDedupFold]
  simp

theorem nodup_jsSetDedup (l : List String) : (jsSetDedup l).Nodup :=
  nodup_jsSetDedupFold l [] List.nodup_nil

theorem id_mem_effPrimaryIndexes (s : SchemaDef) :
    "id" ∈ effPrimaryIndexes s := by
  unfold effPrimaryIndexes
  rw [mem_jsSetDedup]
  simp

theorem validatePartial_nil (shape : Shape) :
    validatePartial shape [] = true := by
  unfold validatePartial
  rw [List.all_eq_true]
  intro ft _
  rfl

theorem validatePartialWithId_nil (shape : Shape) :
    validatePartialWithId shape [] = true :=
  validatePartial_nil _

theorem validatePartialWithId_idQuery (shape : Shape) (id : String)
    (h : "id" ∉ shape.map Prod.fst) :
    validatePartialWithId shape [("id", Val.vStr id)] = true := by
  unfold validatePartialWithId validatePartial
  rw [List.all_eq_true]
  intro ft hft
  rcases List.mem_append.mp hft with hft | hft
  · have hne : ft.1 ≠ "id" := by
      intro he
      exact h (he ▸ List.mem_map_of_mem Prod.fst hft)
    simp [getField, Ne.symm hne]
  · simp only [List.mem_singleton] at hft
    subst hft
    simp [getField, valHasTy]

theorem getField_of_mem_nodup (l : Rec) (k : String) (v : Val)
    (hnd : (l.map Prod.fst).Nodup) (h : (k, v) ∈ l) :
    getField l k = some v := by
  induction l with
  | nil => simp at h
  | cons kv l ih =>
      obtain ⟨k', w⟩ := kv
      simp only [List.map_cons, List.nodup_cons] at hnd
      rcases List.mem_cons.mp h with h | h
      · cases h
        simp [getField]
      · have hk : k' ≠ k := by
          intro he
          subst he
          exact hnd.1 (List.mem_map_of_mem Prod.fst h)
        simp only [getField, if_neg hk]
        exact ih hnd.2 h

theorem getField_eq_none_of_not_mem (l : Rec) (f : String)
    (h : f ∉ l.map Prod.fst) : getField l f = none := by
  induction l with
  | nil => rfl
  | cons kv l ih =>
      obtain ⟨k, w⟩ := kv
      simp only [List.map_cons, List.mem_cons, not_or] at h
      simp only [getField]
      rw [if_neg fun he => h.1 he.symm]
      exact ih h.2

theorem findById_miss (s : SchemaDef) (id : String) (st : Store)
    (hshape : "id" ∉ s.shape.map Prod.fst)
    (habs : getKV st ⟨s.name, getKeysWithIndexes s.name "id", Val.vStr id⟩
      = none) :
    findById s id st
      = some (none,
          [StoreRead.getMany
            [⟨s.name, getKeysWithIndexes s.name "id", Val.vStr id⟩]]) := by
  unfold findById findOne
  rw [if_pos (validatePartialWithId_idQuery s.shape id hshape),
    if_neg (by simp)]
  simp [queryKeys, habs, firstSome]

theorem findById_hit (s : SchemaDef) (id : String) (st : Store) (r : Rec)
    (hshape : "id" ∉ s.shape.map Prod.fst)
    (hkv : getKV st ⟨s.name, getKeysWithIndexes s.name "id", Val.vStr id⟩
      = some r) :
    findById s id st
      = some (some r,
          [StoreRead.getMany
            [⟨s.name, getKeysWithIndexes s.name "id", Val.vStr id⟩]]) := by
  unfold findById findOne
  rw [if_pos (validatePartialWithId_idQuery s.shape id hshape),
    if_neg (by simp)]
  simp [queryKeys, hkv, firstSome]

theorem getField_createdRecord_id (id : String) (data : Rec) (now : Int)
    (hid : "id" ∉ data.map Prod.fst) :
    getField (createdRecord id data now) "id" = some (Val.vStr id) := by
  unfold createdRecord
  rw [getField_stagedRecord_other _ _ _ _ (by decide) (by decide)]
  exact getField_spreadWithId_id data id hid

theorem getField_createdRecord_field (id : String) (data : Rec) (now : Int)
    (F : String) (v : Val) (hnd : (data.map Prod.fst).Nodup)
    (hF1 : F ≠ "createdAt") (hF2 : F ≠ "updatedAt")
    (hF : getField data F = some v) :
    getField (createdRecord id data now) F = some v := by
  unfold createdRecord
  rw [getField_stagedRecord_other _ _ _ _ hF1 hF2]
  exact getField_spreadWithId_other data id F v hnd hF

theorem create_ok_store (s : SchemaDef) (data : Rec) (id : String)
    (now : Int) (st0 st1 : Store)
    (hc : create s data id now st0 = some (CommitResult.ok, st1)) :
    st1 = (effPrimaryIndexes s).foldl
        (fun st i =>
          setKV st (mutKey s.name i (createdRecord id data now))
            (createdRecord id data now)) st0 := by
  simp only [create, performTransaction] at hc
  split at hc
  · split at hc
    · simp only [Option.some.injEq, Prod.mk.injEq] at hc
      rw [← hc.2]
      rfl
    · simp at hc
  · simp at hc

/-! Claim theorems. -/

/-- C7: `findOne({})` and `find({})` (a query with no supplied fields) each
return the absent sentinel (`null`) and, as witnessed by the empty read
trace, issue no read against the key-value store. -/
theorem empty_query_rejection (s : SchemaDef) (st : Store) :
    findOne s [] st = some (none, []) ∧ find s [] st = some (none, []) := by
  constructor
  · unfold findOne
    rw [validatePartialWithId_nil]
    rfl
  · unfold find
    rw [validatePartialWithId_nil]
    rfl

/-- C9: for every schema configuration, the effective primary index list and
the effective secondary index list each contain the field `id` exactly once
and contain no duplicate field names; in particular each list is non-empty,
so every record occupies at least one physical key and is addressable by
`id`. -/
theorem index_sets_contain_id (s : SchemaDef) :
    ("id" ∈ effPrimaryIndexes s ∧ (effPrimaryIndexes s).count "id" = 1 ∧
      (effPrimaryIndexes s).Nodup ∧ 0 < (effPrimaryIndexes s).length) ∧
    ("id" ∈ effSecondaryIndexes s ∧ (effSecondaryIndexes s).count "id" = 1 ∧
      (effSecondaryIndexes s).Nodup ∧ 0 < (effSecondaryIndexes s).length) := by
  have hp := id_mem_effPrimaryIndexes s
  have hs : "id" ∈ effSecondaryIndexes s := by
    unfold effSecondaryIndexes
    rw [mem_jsSetDedup]
    simp
  have hpn : (effPrimaryIndexes s).Nodup := nodup_jsSetDedup _
  have hsn : (effSecondaryIndexes s).Nodup := nodup_jsSetDedup _
  exact ⟨⟨hp, List.count_eq_one_of_mem hpn hp, hpn,
      List.length_pos_of_mem hp⟩,
    ⟨hs, List.count_eq_one_of_mem hsn hs, hsn,
      List.length_pos_of_mem hs⟩⟩

/-- C10: within one commit, for every primary index field whose value is a
string, the precondition (`check`) key equals the mutation key; when the
value is not a string (here: the number 5), the raw-value check key and the
stringified mutation key are distinct physical keys. -/
theorem check_key_vs_mutation_key :
    (∀ (n i : String) (d : Rec) (s : String),
        getFieldD d i = Val.vStr s → checkKey n i d = mutKey n i d) ∧
    checkKey "c" "n" [("n", Val.vNum 5)] ≠ mutKey "c" "n" [("n", Val.vNum 5)] := by
  constructor
  · intro n i d s h
    unfold checkKey mutKey
    rw [h]
    rfl
  · decide

/-- Witness for C10: on the concrete string-valued field `email`, the check
key and the mutation key coincide. -/
theorem check_key_vs_mutation_key_witness :
    checkKey "users" "email" [("email", Val.vStr "a@x.com")]
      = mutKey "users" "email" [("email", Val.vStr "a@x.com")] :=
  check_key_vs_mutation_key.1 "users" "email" [("email", Val.vStr "a@x.com")]
    "a@x.com" (by decide)

/-- C5 counterexample: the record staged by the update write path (the
`set` transaction issued by `updateById` after the deep merge) has its
`createdAt` re-stamped to the update time 5, not left at its creation
value 0: `performTransaction` passes `operation === "set"` as
`isInsertion`, and updates use the `set` path. -/
theorem update_restamps_createdAt_cex :
    getField exR1 "createdAt" = some (Val.vNum 0) ∧
    getField (stagedRecord (deepMerge exR1 exUpd) Op.set 5) "createdAt"
      = some (Val.vNum 5) ∧
    getField (stagedRecord (deepMerge exR1 exUpd) Op.set 5) "updatedAt"
      = some (Val.vNum 5) := by
  decide

/-- C5 amended: on every update write (the `set` path issued by
`updateById`/`updateOne` on an existing record `item` merged with partial
`data`), BOTH `updatedAt` AND `createdAt` are re-stamped to the current
time, because the `set` operation is treated as an insertion by the
timestamp stamping. -/
theorem update_restamps_both_timestamps (item data : Rec) (now : Int) :
    getField (stagedRecord (deepMerge item data) Op.set now) "createdAt"
      = some (Val.vNum now) ∧
    getField (stagedRecord (deepMerge item data) Op.set now) "updatedAt"
      = some (Val.vNum now) :=
  ⟨getField_stagedRecord_createdAt_set _ _,
   getField_stagedRecord_updatedAt _ _ _⟩

/-- C2 (code bug, concrete evaluation): after a successful `create` of
`{email: "a@x.com"}` with id `u1`, `deleteById("u1")` does NOT delete the
record: its atomic commit stages not-exists preconditions on the very keys
the record occupies, so the commit fails (`{ok: false}`), the store is
unchanged, and point lookups by `id` and by `email` still return the
record. -/
theorem deleteById_fails_on_existing :
    create usersS exD1 "u1" 0 [] = some (CommitResult.ok, exSt1) ∧
    deleteById usersS "u1" 5 exSt1 = some (some CommitResult.fail, exSt1) ∧
    findById usersS "u1" exSt1
      = some (some exR1,
          [StoreRead.getMany [⟨"users", "users_by_id", Val.vStr "u1"⟩]]) ∧
    findOne usersS [("email", Val.vStr "a@x.com")] exSt1
      = some (some exR1,
          [StoreRead.getMany
            [⟨"users", "users_by_email", Val.vStr "a@x.com"⟩]]) :=
  ⟨by decide, by decide, by decide, by decide⟩

/-- C3 (code bug, concrete evaluation): on the existing record `u1`,
`updateById("u1", {email: "b@x.com"})` does NOT succeed: its commit reuses
the insertion protocol's not-exists preconditions against keys that exist,
so it returns a failed commit (`{ok: false}`), the store is unchanged, and
`findById("u1")` still returns the old record with `email = "a@x.com"`. -/
theorem updateById_fails_on_existing :
    updateById usersS "u1" exUpd 5 exSt1
      = some (some CommitResult.fail, exSt1) ∧
    findById usersS "u1" exSt1
      = some (some exR1,
          [StoreRead.getMany [⟨"users", "users_by_id", Val.vStr "u1"⟩]]) ∧
    getField exR1 "email" = some (Val.vStr "a@x.com") :=
  ⟨by decide, by decide, by decide⟩

theorem procEntry_of_mem (q : Rec) (r : Rec) (seen : List Val)
    (out : List Rec) (h : gid r ∈ seen) :
    procEntry q r (seen, out) = (seen, out) := by
  induction q with
  | nil => rfl
  | cons kv q ih =>
      unfold procEntry at ih ⊢
      rw [List.foldl_cons]
      have hstep : procStep r (seen, out) kv = (seen, out) := by
        unfold procStep
        by_cases hm : fieldMatches r kv = true
        · rw [if_pos hm, if_pos h]
        · rw [if_neg hm]
      rw [hstep]
      exact ih

theorem procEntry_eq (q : Rec) (r : Rec) (seen : List Val)
    (out : List Rec) :
    procEntry q r (seen, out)
      = if matchesAny q r = true ∧ gid r ∉ seen
        then (seen ++ [gid r], out ++ [r]) else (seen, out) := by
  induction q generalizing seen out with
  | nil =>
      rw [if_neg]
      · rfl
      · rintro ⟨hm, _⟩
        simp [matchesAny] at hm
  | cons kv q ih =>
      by_cases hm : fieldMatches r kv = true
      · by_cases hs : gid r ∈ seen
        · unfold procEntry
          rw [List.foldl_cons]
          have hstep : procStep r (seen, out) kv = (seen, out) := by
            unfold procStep
            rw [if_pos hm, if_pos hs]
          rw [hstep]
          have hrest := procEntry_of_mem q r seen out hs
          unfold procEntry at hrest
          rw [hrest, if_neg]
          rintro ⟨_, hns⟩
          exact hns hs
        · unfold procEntry
          rw [List.foldl_cons]
          have hstep : procStep r (seen, out) kv
              = (seen ++ [gid r], out ++ [r]) := by
            unfold procStep
            rw [if_pos hm, if_neg hs]
          rw [hstep]
          have hrest := procEntry_of_mem q r (seen ++ [gid r]) (out ++ [r])
            (by simp)
          unfold procEntry at hrest
          rw [hrest, if_pos]
          refine ⟨?_, hs⟩
          unfold matchesAny
          rw [List.any_cons]
          simp [hm]
      · unfold procEntry
        rw [List.foldl_cons]
        have hstep : procStep r (seen, out) kv = (seen, out) := by
          unfold procStep
          rw [if_neg hm]
        rw [hstep]
        have hrec := ih seen out
        unfold procEntry at hrec
        rw [hrec]
        have hcond : (matchesAny (kv :: q) r = true ∧ gid r ∉ seen)
            ↔ (matchesAny q r = true ∧ gid r ∉ seen) := by
          unfold matchesAny
          rw [List.any_cons]
          simp [hm]
        by_cases hq : matchesAny q r = true ∧ gid r ∉ seen
        · rw [if_pos hq, if_pos (hcond.mpr hq)]
        · rw [if_neg hq, if_neg fun hh => hq (hcond.mp hh)]

theorem foldl_procEntry_entries (q : Rec) (entries : List (Key × Rec))
    (seen : List Val) (out : List Rec) :
    entries.foldl (fun acc e => procEntry q e.2 acc) (seen, out)
      = ((dedupAux seen
            ((entries.map Prod.snd).filter (matchesAny q))).1,
         out ++ (dedupAux seen
            ((entries.map Prod.snd).filter (matchesAny q))).2) := by
  induction entries generalizing seen out with
  | nil => simp [dedupAux]
  | cons e es ih =>
      rw [List.foldl_cons, List.map_cons, List.filter_cons]
      by_cases hm : matchesAny q e.2 = true
      · rw [if_pos hm]
        by_cases hs : gid e.2 ∈ seen
        · rw [procEntry_eq, if_neg (by rintro ⟨_, hns⟩; exact hns hs), ih]
          simp only [dedupAux]
          rw [if_pos hs]
        · rw [procEntry_eq, if_pos ⟨hm, hs⟩, ih]
          simp only [dedupAux]
          rw [if_neg hs]
          simp
      · rw [if_neg hm, procEntry_eq,
          if_neg (by rintro ⟨hmm, _⟩; exact hm hmm), ih]

/-- C6: on every non-empty validated query, `find` scans the whole
collection and returns exactly the scanned records for which at least one
queried field matches (logical OR across the supplied fields), each
included once (deduplicated by `id` via a membership set) and in
first-seen scan order — i.e. the source fold equals the spec-side
filter-then-dedup characterisation `specFindResult`. The single logged
`scanColl` read is the full collection scan. -/
theorem find_scan_characterisation (s : SchemaDef) (q : Rec) (st : Store)
    (hq : q ≠ []) (hv : validatePartialWithId s.shape q = true) :
    find s q st
      = some (some (specFindResult s q st), [StoreRead.scanColl s.name]) := by
  unfold find
  rw [if_pos hv, if_neg (by simpa using hq)]
  rw [foldl_procEntry_entries]
  unfold specFindResult collEntries
  simp

/-- Witness for C6 on the concrete example store (two physical keys holding
the same record): the scan deduplicates by id to the single record. -/
theorem find_scan_characterisation_witness :
    find usersS [("email", Val.vStr "a@x.com")] exSt1
      = some (some
          (specFindResult usersS [("email", Val.vStr "a@x.com")] exSt1),
          [StoreRead.scanColl "users"]) :=
  find_scan_characterisation usersS [("email", Val.vStr "a@x.com")] exSt1
    (by decide) (by decide)

/-- C8: for every identifier with no stored record under its id key and
every partial data that passes validation (over a shape that does not
itself declare `id`), `updateById` returns the absent result (`null`) and
performs no mutation: the resulting store is the input store. -/
theorem updateById_absent_noop (s : SchemaDef) (id : String) (data : Rec)
    (now : Int) (st : Store)
    (hv : validatePartial s.shape data = true)
    (hshape : "id" ∉ s.shape.map Prod.fst)
    (habs : getKV st ⟨s.name, getKeysWithIndexes s.name "id", Val.vStr id⟩
      = none) :
    updateById s id data now st = some (none, st) := by
  unfold updateById
  rw [if_pos hv, findById_miss s id st hshape habs]

/-- Witness for C8 at a concrete input: id `u9` is absent from the example
store, so `updateById` is a no-op returning `null`. -/
theorem updateById_absent_noop_witness :
    updateById usersS "u9" exUpd 5 exSt1 = some (none, exSt1) :=
  updateById_absent_noop usersS "u9" exUpd 5 exSt1 (by decide) (by decide)
    (by decide)

/-- C4: round-trip. If `create(data)` succeeds (its commit returns ok) for
input whose keys are duplicate-free and do not include `id`, over a shape
not declaring `id`, then `findById` of the assigned identifier returns
exactly the committed record, whose `id` is the assigned identifier, whose
`createdAt` and `updatedAt` both equal the creation time (hence are equal),
and whose every other field agrees with `data`. -/
theorem create_findById_roundtrip (s : SchemaDef) (data : Rec) (id : String)
    (now : Int) (st0 st1 : Store)
    (hnd : (data.map Prod.fst).Nodup)
    (hid : "id" ∉ data.map Prod.fst)
    (hshape : "id" ∉ s.shape.map Prod.fst)
    (hc : create s data id now st0 = some (CommitResult.ok, st1)) :
    findById s id st1
      = some (some (createdRecord id data now),
          [StoreRead.getMany
            [⟨s.name, getKeysWithIndexes s.name "id", Val.vStr id⟩]]) ∧
    getField (createdRecord id data now) "id" = some (Val.vStr id) ∧
    getField (createdRecord id data now) "createdAt"
      = some (Val.vNum now) ∧
    getField (createdRecord id data now) "updatedAt"
      = some (Val.vNum now) ∧
    ∀ f, f ≠ "id" → f ≠ "createdAt" → f ≠ "updatedAt" →
      getField (createdRecord id data now) f = getField data f := by
  have hrid : getField (createdRecord id data now) "id"
      = some (Val.vStr id) := getField_createdRecord_id id data now hid
  have hst1 := create_ok_store s data id now st0 st1 hc
  have hkv : getKV st1 ⟨s.name, getKeysWithIndexes s.name "id", Val.vStr id⟩
      = some (createdRecord id data now) := by
    rw [hst1, getKV_setFold]
    rw [if_pos ?_]
    refine List.mem_map.mpr ⟨"id", id_mem_effPrimaryIndexes s, ?_⟩
    unfold mutKey getFieldD
    rw [hrid]
    rfl
  refine ⟨findById_hit s id st1 _ hshape hkv, hrid,
    getField_stagedRecord_createdAt_set _ _,
    getField_stagedRecord_updatedAt _ _ _, ?_⟩
  intro f hf1 hf2 hf3
  unfold createdRecord
  rw [getField_stagedRecord_other _ _ _ _ hf2 hf3]
  by_cases hmem : f ∈ data.map Prod.fst
  · obtain ⟨kv, hkv', hfst⟩ := List.mem_map.mp hmem
    obtain ⟨k, v⟩ := kv
    have hg : getField data f = some v := by
      subst hfst
      exact getField_of_mem_nodup _ _ _ hnd hkv'
    rw [hg]
    exact getField_spreadWithId_other data id f v hnd hg
  · rw [getField_eq_none_of_not_mem data f hmem]
    unfold spreadWithId
    rw [getField_foldlSet_not_mem _ _ _ hmem]
    simp [getField, Ne.symm hf1]

/-- Witness for C4 on the concrete example: `create({email:"a@x.com"})`
with id `u1` at time 0, then `findById("u1")`. -/
theorem create_findById_roundtrip_witness :
    findById usersS "u1" exSt1
      = some (some (createdRecord "u1" exD1 0),
          [StoreRead.getMany
            [⟨"users", getKeysWithIndexes "users" "id", Val.vStr "u1"⟩]]) ∧
    getField (createdRecord "u1" exD1 0) "id" = some (Val.vStr "u1") ∧
    getField (createdRecord "u1" exD1 0) "createdAt" = some (Val.vNum 0) ∧
    getField (createdRecord "u1" exD1 0) "updatedAt" = some (Val.vNum 0) ∧
    ∀ f, f ≠ "id" → f ≠ "createdAt" → f ≠ "updatedAt" →
      getField (createdRecord "u1" exD1 0) f = getField exD1 f :=
  create_findById_roundtrip usersS exD1 "u1" 0 [] exSt1 (by decide)
    (by decide) (by decide) (by decide)

/-- C1: uniqueness. Starting from a store where the first `create`'s
not-exists preconditions are all clear, two `create` calls whose inputs
carry the same string value `v` for a declared primary-index field `F`
result in exactly one success and one conflict: the first commit succeeds,
and the second fails its not-exists precondition on the shared
`(name, name_by_F, v)` projection key, leaving the store unchanged. -/
theorem create_uniqueness (s : SchemaDef) (F v : String) (d1 d2 : Rec)
    (id1 id2 : String) (n1 n2 : Int) (st0 : Store)
    (hF : F ∈ effPrimaryIndexes s)
    (hFc : F ≠ "createdAt") (hFu : F ≠ "updatedAt")
    (hnd1 : (d1.map Prod.fst).Nodup) (hnd2 : (d2.map Prod.fst).Nodup)
    (h1 : getField d1 F = some (Val.vStr v))
    (h2 : getField d2 F = some (Val.vStr v))
    (hv1 : validateObj s.shape d1 = true)
    (hv2 : validateObj s.shape d2 = true)
    (hclean : ∀ i ∈ effPrimaryIndexes s,
        getKV st0 (checkKey s.name i (createdRecord id1 d1 n1)) = none) :
    ∃ st1, create s d1 id1 n1 st0 = some (CommitResult.ok, st1) ∧
      create s d2 id2 n2 st1 = some (CommitResult.fail, st1) := by
  have hr1F : getField (createdRecord id1 d1 n1) F = some (Val.vStr v) :=
    getField_createdRecord_field id1 d1 n1 F _ hnd1 hFc hFu h1
  have hr2F : getField (createdRecord id2 d2 n2) F = some (Val.vStr v) :=
    getField_createdRecord_field id2 d2 n2 F _ hnd2 hFc hFu h2
  unfold createdRecord at hr1F hr2F hclean
  refine ⟨(effPrimaryIndexes s).foldl
      (fun st i =>
        setKV st (mutKey s.name i (stagedRecord (spreadWithId id1 d1) Op.set n1))
          (stagedRecord (spreadWithId id1 d1) Op.set n1)) st0, ?_, ?_⟩
  · simp only [create, performTransaction]
    rw [if_pos hv1, if_pos ?_]
    rw [List.all_eq_true]
    intro i hi
    rw [hclean i hi]
    rfl
  · have hkv : getKV
        ((effPrimaryIndexes s).foldl
          (fun st i =>
            setKV st
              (mutKey s.name i (stagedRecord (spreadWithId id1 d1) Op.set n1))
              (stagedRecord (spreadWithId id1 d1) Op.set n1)) st0)
        (checkKey s.name F (stagedRecord (spreadWithId id2 d2) Op.set n2))
        = some (stagedRecord (spreadWithId id1 d1) Op.set n1) := by
      rw [getKV_setFold, if_pos ?_]
      refine List.mem_map.mpr ⟨F, hF, ?_⟩
      unfold mutKey checkKey getFieldD
      rw [hr1F, hr2F]
      rfl
    have hall : ((effPrimaryIndexes s).all fun index =>
        (getKV ((effPrimaryIndexes s).foldl
          (fun st i =>
            setKV st
              (mutKey s.name i (stagedRecord (spreadWithId id1 d1) Op.set n1))
              (stagedRecord (spreadWithId id1 d1) Op.set n1)) st0)
          (checkKey s.name index
            (stagedRecord (spreadWithId id2 d2) Op.set n2))).isNone)
        = false := by
      rw [List.all_eq_false]
      exact ⟨F, hF, by rw [hkv]; simp⟩
    simp only [create, performTransaction]
    rw [if_pos hv2, if_neg (by rw [hall]; simp)]

/-- Witness for C1 on the concrete example: two creates of
`{email:"a@x.com"}` (ids `u1`, `u2`) from the empty store; the first
succeeds, the second conflicts. -/
theorem create_uniqueness_witness :
    ∃ st1, create usersS exD1 "u1" 0 [] = some (CommitResult.ok, st1) ∧
      create usersS exD1 "u2" 3 st1 = some (CommitResult.fail, st1) :=
  create_uniqueness usersS "email" "a@x.com" exD1 exD1 "u1" "u2" 0 3 []
    (by decide) (by decide) (by decide) (by decide) (by decide) (by decide)
    (by decide) (by decide) (by decide) (by decide)

end Dongoose
